import Mathlib

/-!
Verification development for the vega incremental dataflow engine and its
hierarchy transform module.

Embedded from the source files:
  * the `nest()` grouping function, the `Nest`, `Stratify`, `TreeLinks`
    transforms and the `HierarchyLayout` family (Tree, Treemap layouts),
  * the view `scale(name)` accessor,
  * `selectionTest` / `testPoint` from the selections package.

The dataflow core (Pulse operations, operator graph and ranking) is not part
of the shipped source tree; those pieces are modelled from the spec, and each
such definition carries a doc comment saying so.  External d3 collaborators
(d3-hierarchy trees, layout geometry) are modelled just deeply enough for the
transforms' control flow, which is what the claims are about.
-/

namespace Vega

/-- Association-list lookup, modelling property access on a JS object used as
a string- or id-keyed map (`map[key]`, `hasOwnProperty`). The most recent
binding shadows older ones. -/
def alookup {κ β : Type} [DecidableEq κ] (k : κ) : List (κ × β) → Option β
  | [] => none
  | p :: rest => if p.1 = k then some p.2 else alookup k rest

/-- Data records flowing through the graph. `obj` is a plain data record with
string-valued fields, `link` is a `{source, target}` record built by
TreeLinks, `gen` is an internal `{key, values}` (or root `{values}`) node
object generated by the nest grouping. The first argument is the tuple
identity, `none` until the record is ingested. -/
inductive Datum where
  | obj : Option Nat → List (String × String) → Datum
  | link : Option Nat → Datum → Datum → Datum
  | gen : Option Nat → Option String → Datum
deriving DecidableEq, Repr

/-- `tupleid(t)`: the stable tuple identity, or `none` when unset.
Modelled from the spec (§4.1): identities are minted only by ingestion. -/
def tupleid : Datum → Option Nat
  | .obj i _ => i
  | .link i _ _ => i
  | .gen i _ => i

/-- `isTuple(t)`: whether the record carries a tuple identity. -/
def isTuple (d : Datum) : Bool := (tupleid d).isSome

/-- Write a tuple identity onto a record. -/
def setId : Datum → Nat → Datum
  | .obj _ a, i => .obj (some i) a
  | .link _ s t, i => .link (some i) s t
  | .gen _ k, i => .gen (some i) k

/-- `ingest(record)`. Modelled from the spec (§4.1): assigns a new identity
only if the record has none; the second component is the updated id counter. -/
def ingest (d : Datum) (c : Nat) : Datum × Nat :=
  if (tupleid d).isSome then (d, c) else (setId d c, c + 1)

/-- Field accessor over a plain data record (vega-util `field`): reads the
named attribute, `""` when absent or when the record is not a plain object. -/
def attrOf (f : String) (d : Datum) : String :=
  match d with
  | .obj _ a => (alookup f a).getD ""
  | _ => ""

mutual
/-- d3-hierarchy node tree: a data record plus the list of child nodes.
Models the external d3-hierarchy node structure as the transforms use it
(`node.data`, `node.children`, `node.parent`). -/
inductive NTree where
  | tnode : Datum → NForest → NTree
deriving DecidableEq, Repr
/-- Children list of an `NTree` node. -/
inductive NForest where
  | fnil : NForest
  | fcons : NTree → NForest → NForest
deriving DecidableEq, Repr
end

/-- Whether a children list is empty; d3 leaves have no `children` property. -/
def NForest.isNil : NForest → Bool
  | .fnil => true
  | .fcons _ _ => false

mutual
/-- All nodes of a tree as `(data, hasChildren)` pairs.  Models d3
`tree.each`; d3 enumerates breadth-first, but none of the claims depend on
the enumeration order, only on the set of visited nodes. -/
def eachTree : NTree → List (Datum × Bool)
  | .tnode d cs => (d, !cs.isNil) :: eachForest cs
/-- `eachTree` over a children list. -/
def eachForest : NForest → List (Datum × Bool)
  | .fnil => []
  | .fcons t rest => eachTree t ++ eachForest rest
end

mutual
/-- All parent/child data pairs of a tree, models the `node.parent` walk in
TreeLinks (`(parent.data, node.data)` for every non-root node). -/
def treeEdges : NTree → List (Datum × Datum)
  | .tnode d cs => forestEdges d cs
/-- `treeEdges` helper: edges inside a forest whose parent data is `p`. -/
def forestEdges (p : Datum) : NForest → List (Datum × Datum)
  | .fnil => []
  | .fcons t rest => childEdges p t ++ forestEdges p rest
/-- `treeEdges` helper: the edge to one child plus the child's own edges. -/
def childEdges (p : Datum) : NTree → List (Datum × Datum)
  | .tnode c cs => (p, c) :: forestEdges c cs
end

mutual
/-- The `generate` branch of Nest: `tree.each(node => { if (node.children)
{ node = ingest(node.data); out.add.push(node); out.source.push(node); } })`.
Ingests the data record of every node that has children, returning the
updated tree, the ingested records in visit order, and the id counter. -/
def ingestTree : NTree → Nat → NTree × List Datum × Nat
  | .tnode d cs, c =>
    match cs with
    | .fnil => (.tnode d .fnil, [], c)
    | .fcons t rest =>
      let dc := ingest d c
      let fr := ingestForest (.fcons t rest) dc.2
      (.tnode dc.1 fr.1, dc.1 :: fr.2.1, fr.2.2)
/-- `ingestTree` over a children list. -/
def ingestForest : NForest → Nat → NForest × List Datum × Nat
  | .fnil, c => (.fnil, [], c)
  | .fcons t rest, c =>
    let tr := ingestTree t c
    let fr := ingestForest rest tr.2.2
    (.fcons tr.1 fr.1, tr.2.1 ++ fr.2.1, fr.2.2)
end

/-- Convert a list of nodes into a children list. -/
def listToForest : List NTree → NForest
  | [] => .fnil
  | t :: rest => .fcons t (listToForest rest)

/-! ## The `nest()` grouping function (source: part_001, lines 96-139) -/

/-- Intermediate value of `apply`: either the input array (at full depth) or
a JS object mapping a key string to the next level (`valuesByKey`). -/
inductive NMap (α : Type) where
  | arr : List α → NMap α
  | map : List (String × NMap α) → NMap α

/-- Result of `entries`: either a plain array of records (leaf level) or an
array of `{key, values}` objects. -/
inductive NestEntry (α : Type) where
  | values : List α → NestEntry α
  | keyed : List (String × NestEntry α) → NestEntry α

/-- One step of the grouping loop body: `values = valuesByKey[keyValue]`
either pushes onto the existing group or installs a new single-element group.
New keys are appended, matching JS string-key insertion order. -/
def insertGroup {α : Type} (k : String) (x : α) :
    List (String × List α) → List (String × List α)
  | [] => [(k, [x])]
  | g :: rest => if g.1 = k then (g.1, g.2 ++ [x]) :: rest else g :: insertGroup k x rest

/-- The `while (++i < n)` loop of `apply`: fold the input array from the left
into `valuesByKey`, grouping by the string-coerced key value. -/
def groupLoop {α : Type} (key : α → String) :
    List α → List (String × List α) → List (String × List α)
  | [], acc => acc
  | x :: xs, acc => groupLoop key xs (insertGroup (key x) x acc)

/-- `apply(array, depth)` from `nest()`: recursively group by each key in
turn; at full depth the array itself is returned.  The remaining-keys list
plays the role of `keys.length - depth`. -/
def applyFn {α : Type} : List (α → String) → List α → NMap α
  | [], arr => .arr arr
  | k :: rest, arr => .map ((groupLoop k arr []).map (fun g => (g.1, applyFn rest g.2)))

/-- `entries(map, depth)` from `nest()`: convert each grouping level into an
array of `{key, values}` objects; past full depth the value is returned
unchanged.  The `.arr`/`.map` mismatch cases cannot arise for structures
built by `applyFn` with the same key list. -/
def entriesFn {α : Type} : List (α → String) → NMap α → NestEntry α
  | [], .arr a => .values a
  | [], .map _ => .keyed []
  | _ :: rest, .map m => .keyed (m.map (fun g => (g.1, entriesFn rest g.2)))
  | _ :: _, .arr a => .values a

/-- `nest().key(k1)...key(kn).entries(arr)`. -/
def nestEntries {α : Type} (keys : List (α → String)) (arr : List α) : NestEntry α :=
  entriesFn keys (applyFn keys arr)

/-- The leaf groups of a nest-entries structure, indexed by the same key
list that built it: the arrays of input records at the bottom of the
grouping. -/
def entryLeaves {α : Type} : List (α → String) → NestEntry α → List (List α)
  | [], .values a => [a]
  | [], .keyed _ => []
  | _ :: rest, .keyed l => l.flatMap (fun g => entryLeaves rest g.2)
  | _ :: _, .values a => [a]

/-- Leaf groups of `nest()` output. -/
def nestLeaves {α : Type} (keys : List (α → String)) (arr : List α) : List (List α) :=
  entryLeaves keys (nestEntries keys arr)

/-- Direct recursion computing the same leaf groups from the grouping loop;
used to reason about `nestLeaves`. -/
def leafGroups {α : Type} : List (α → String) → List α → List (List α)
  | [], arr => [arr]
  | k :: rest, arr => (groupLoop k arr []).flatMap (fun g => leafGroups rest g.2)

/-- `keysAgree ks x y`: every key function yields the same value on `x` and
`y` (key values are already strings, mirroring the `key(value) + ''`
coercion). -/
def keysAgree {α : Type} (ks : List (α → String)) (x : α) : α → Bool :=
  fun y => ks.all (fun k => k y == k x)

/-! ## Pulse model.  The Pulse class lives in the dataflow core, which is not
part of the shipped sources; its operations are modelled from the spec
(§3 "Pulse", §4.2 "Pulse Operations"). -/

/-- Modelled from the spec: a pulse value — add/rem/mod sequences, the set of
touched field names, an optional full source list, the tree root reference
that the hierarchy transforms hang off the source (`source.root`), and the
round stamp. -/
structure PulseData where
  add : List Datum := []
  rem : List Datum := []
  mod : List Datum := []
  fields : List String := []
  source : Option (List Datum) := none
  root : Option NTree := none
  stamp : Nat := 0
deriving DecidableEq, Repr

/-- Visit flag bit for additions. Modelled from the spec; numeric values are
a model choice, only the bit semantics matter. -/
def ADD : Nat := 1
/-- Visit flag bit for removals. -/
def REM : Nat := 2
/-- Visit flag bit for modifications. -/
def MOD : Nat := 4
/-- Flag union add|rem. -/
def ADD_REM : Nat := 3
/-- Flag union add|rem|mod. -/
def ALL : Nat := 7
/-- Flag bit selecting the materialized source. -/
def SOURCE : Nat := 16
/-- Fork modifier: do not share the source reference. -/
def NO_SOURCE : Nat := 32

/-- Modelled from the spec: `pulse.changed(flags)` reports whether the pulse
carries a delta in any of the selected sequences. -/
def pchanged (pd : PulseData) (flags : Nat) : Bool :=
  (flags &&& ADD != 0 && !pd.add.isEmpty)
  || (flags &&& REM != 0 && !pd.rem.isEmpty)
  || (flags &&& MOD != 0 && !pd.mod.isEmpty)

/-- Modelled from the spec: `pulse.changed()` with no flags defaults to the
add/rem delta; a no-op pulse reports no change. -/
def pchangedDefault (pd : PulseData) : Bool := pchanged pd ADD_REM

/-- Modelled from the spec: `pulse.modified(fields)` reports whether any of
the named fields is in the pulse's touched-fields set; with an empty
touched set the answer is always `false`. -/
def pmodified (pd : PulseData) (fs : List String) : Bool :=
  fs.any (fun f => pd.fields.contains f)

/-- Tags identifying which sequence a `visit` callback came from. -/
inductive VTag where
  | vrem
  | vadd
  | vmod
  | vsrc
deriving DecidableEq, Repr

/-- Position of a visit tag in the fixed visitation order. -/
def vtagRank : VTag → Nat
  | .vrem => 0
  | .vadd => 1
  | .vmod => 2
  | .vsrc => 3

/-- Modelled from the spec (§4.2): `visit(flags, fn)` applies `fn` over the
selected sequences in the fixed order removals, additions, modifications,
then (if requested) the full source.  The value is the trace of callback
invocations in order. -/
def pvisitTrace (pd : PulseData) (flags : Nat) : List (VTag × Datum) :=
  (if flags &&& REM != 0 then pd.rem.map (fun d => (VTag.vrem, d)) else [])
  ++ (if flags &&& ADD != 0 then pd.add.map (fun d => (VTag.vadd, d)) else [])
  ++ (if flags &&& MOD != 0 then pd.mod.map (fun d => (VTag.vmod, d)) else [])
  ++ (if flags &&& SOURCE != 0 then (pd.source.getD []).map (fun d => (VTag.vsrc, d)) else [])

/-! ## Pulse store: pulse objects are shared by reference between producer
and consumers, so the transforms are embedded over an explicit store mapping
pulse references to pulse values.  A JS in-place mutation (`out.rem.push`)
becomes a store update at the mutated reference; the shared-pulse aliasing
claims are statements about which references a transform writes. -/

/-- The pulse store: reference/value bindings, most recent first. -/
abbrev PStore := List (Nat × PulseData)

/-- Read a pulse by reference (missing references read as an empty pulse). -/
def getP (st : PStore) (r : Nat) : PulseData := (alookup r st).getD {}

/-- Largest reference bound in the store. -/
def maxPid (st : PStore) : Nat := (st.map Prod.fst).foldr (fun a b => max a b) 0

/-- A reference not yet bound in the store. -/
def freshPid (st : PStore) : Nat := maxPid st + 1

/-- Mutate the pulse bound at `r` in place. -/
def updP (st : PStore) (r : Nat) (f : PulseData → PulseData) : PStore :=
  (r, f (getP st r)) :: st

/-- Modelled from the spec: `pulse.clone()` — allocate a new pulse object
whose sequences may be mutated locally without corrupting the original. -/
def clonePulse (st : PStore) (r : Nat) : Nat × PStore :=
  (freshPid st, (freshPid st, getP st r) :: st)

/-- Modelled from the spec: `pulse.fork(flags)` — allocate a new pulse with
the same stamp, selectively carrying over the add/rem/mod sequences, sharing
the source unless `NO_SOURCE` is requested. -/
def forkPulse (st : PStore) (r : Nat) (flags : Nat) : Nat × PStore :=
  let pd := getP st r
  let nd : PulseData :=
    { add := if flags &&& ADD != 0 then pd.add else []
      rem := if flags &&& REM != 0 then pd.rem else []
      mod := if flags &&& MOD != 0 then pd.mod else []
      fields := pd.fields
      source := if flags &&& NO_SOURCE != 0 then none else pd.source
      root := if flags &&& NO_SOURCE != 0 then none else pd.root
      stamp := pd.stamp }
  (freshPid st, (freshPid st, nd) :: st)

/-- Modelled from the spec: `pulse.materialize(SOURCE)` forces a source list
to exist, deriving it from the accumulated additions when absent. -/
def materializeP (st : PStore) (r : Nat) (flags : Nat) : PStore :=
  if flags &&& SOURCE != 0 then
    updP st r (fun pd => { pd with source := some (pd.source.getD pd.add) })
  else st

/-- Modelled from the spec: `pulse.reflow(fork)` — mark the prior tuples as
modified when the operator's parameters changed. -/
def preflow (pd : PulseData) (b : Bool) : PulseData :=
  if b then { pd with mod := pd.source.getD [] } else pd

/-- Modelled from the spec: `pulse.modifies(fields)` — add field names to the
pulse's touched-fields set. -/
def pmodifies (pd : PulseData) (fs : List String) : PulseData :=
  { pd with fields := pd.fields ++ fs }

/-! ## Transform metadata declarations (the `Definition` objects) -/

/-- The optional metadata flags of a transform `Definition` (spec §6). -/
structure TransformMetadata where
  tree : Bool := false
  generates : Bool := false
  modifies : Bool := false
  changes : Bool := false
  treesource : Bool := false
deriving DecidableEq, Repr

/-- `Nest.Definition.metadata` (source lines 35-49). -/
def Nest_Definition_metadata : TransformMetadata :=
  { treesource := true, changes := true }

/-- `Stratify.Definition.metadata` (source lines 300-314). -/
def Stratify_Definition_metadata : TransformMetadata :=
  { treesource := true }

/-- `TreeLinks.Definition.metadata` (source lines 411-419). -/
def TreeLinks_Definition_metadata : TransformMetadata :=
  { tree := true, generates := true, changes := true }

/-- `Pack.Definition.metadata`. -/
def Pack_Definition_metadata : TransformMetadata :=
  { tree := true, modifies := true }

/-- `Partition.Definition.metadata`. -/
def Partition_Definition_metadata : TransformMetadata :=
  { tree := true, modifies := true }

/-- `Tree.Definition.metadata`. -/
def Tree_Definition_metadata : TransformMetadata :=
  { tree := true, modifies := true }

/-- `Treemap.Definition.metadata`. -/
def Treemap_Definition_metadata : TransformMetadata :=
  { tree := true, modifies := true }

/-! ## Nest transform (source lines 51-95) -/

/-- Parameters of the Nest transform; `modified` is the value of
`_.modified()` for the round (whether any parameter changed). -/
structure NestParams where
  keys : List (Datum → String)
  generate : Bool
  modified : Bool

/-- Result of a Nest recompute: the output pulse reference, the store after
the transform's writes, the new operator value and the id counter. -/
structure NestResult where
  out : Nat
  st : PStore
  value : Option NTree
  idc : Nat

/-- Children accessor composition for `hierarchy({values: ...}, n => n.values)`:
leaf records have no `values` property, `{key, values}` objects one level of
children per remaining key. -/
def entryChildren : List (Datum → String) → NestEntry Datum → NForest
  | _, .values l => listToForest (l.map (fun d => NTree.tnode d .fnil))
  | [], .keyed _ => .fnil
  | _ :: rest, .keyed l =>
    listToForest (l.map (fun g => NTree.tnode (Datum.gen none (some g.1)) (entryChildren rest g.2)))

/-- `hierarchy({values: entries}, children)`: root node data is the wrapper
object (a `gen` record without a key). -/
def hierarchyOf (ks : List (Datum → String)) (e : NestEntry Datum) : NTree :=
  .tnode (Datum.gen none none) (entryChildren ks e)

/-- `Nest.transform(_, pulse)` (source lines 52-94) over the pulse store.
The tuple-id lookup table hung off the tree (`lookup(tree, tupleid,
tupleid)`) is a derived map over the tree's nodes and is not separately
modelled; no claim reads it. -/
def Nest_transform (p : NestParams) (value : Option NTree) (st : PStore) (pRef : Nat)
    (idc : Nat) : Except String NestResult :=
  let pd := getP st pRef
  if pd.source.isNone then
    .error "Nest transform requires an upstream data source."
  else
    let co := clonePulse st pRef
    let outRef := co.1
    let st1 := co.2
    if value.isNone || p.modified || pchangedDefault pd then
      -- collect previous generated internal nodes for removal
      let st2 :=
        match value with
        | some tree =>
          updP st1 outRef (fun od =>
            { od with rem := od.rem ++
                ((eachTree tree).filter (fun de => de.2 && isTuple de.1)).map Prod.fst })
        | none => st1
      -- generate the new tree structure from out.source
      let src := (getP st2 outRef).source.getD []
      let tree1 := hierarchyOf p.keys (nestEntries p.keys src)
      if p.generate then
        let gi := ingestTree tree1 idc
        let st3 :=
          updP st2 outRef (fun od =>
            { od with add := od.add ++ gi.2.1
                      source := some ((od.source.getD []) ++ gi.2.1) })
        let st4 := updP st3 outRef (fun od => { od with root := some gi.1 })
        .ok ⟨outRef, st4, some gi.1, gi.2.2⟩
      else
        let st4 := updP st2 outRef (fun od => { od with root := some tree1 })
        .ok ⟨outRef, st4, some tree1, idc⟩
    else
      let st4 := updP st1 outRef (fun od => { od with root := value })
      .ok ⟨outRef, st4, value, idc⟩

/-! ## Stratify transform (source lines 297-333) -/

/-- Parameters of the Stratify transform: the key and parent-key accessors
with their declared source field names, plus the round's `_.modified()`. -/
structure StratifyParams where
  key : Datum → String
  keyFields : List String
  parentKey : Datum → String
  parentKeyFields : List String
  modified : Bool

/-- Result of a Stratify recompute. -/
structure StratResult where
  out : Nat
  st : PStore
  value : Option NTree

/-- Children of `d` among `arr` linked by parent key.  Models external
d3-stratify child linking. -/
def childrenOf (key pkey : Datum → String) (arr : List Datum) (d : Datum) : List Datum :=
  arr.filter (fun c => pkey c == key d)

/-- Fuel-bounded tree building for `stratify()`.  Models the external
d3-stratify construction; d3 raises on cyclic parent chains, the model
truncates them (no claim inspects tree shape). -/
def buildFrom (key pkey : Datum → String) (arr : List Datum) : Nat → Datum → NTree
  | 0, d => .tnode d .fnil
  | fuel + 1, d =>
    .tnode d (listToForest ((childrenOf key pkey arr d).map (buildFrom key pkey arr fuel)))

/-- `stratify().id(_.key).parentId(_.parentKey)(source)`.  Models the
external d3-stratify entry point: the unique record with an empty parent key
is the root. -/
def stratifyBuild (key pkey : Datum → String) (arr : List Datum) : Except String NTree :=
  match arr.filter (fun d => pkey d == "") with
  | [r] => .ok (buildFrom key pkey (arr.filter (fun d => pkey d != "")) arr.length r)
  | _ => .error "stratify: missing or ambiguous root"

/-- `Stratify.transform(_, pulse)` (source lines 316-332) over the pulse
store.  `out.source = out.source.slice()` is a defensive copy, an identity
in the value model; the node lookup table is not modelled (see
`Nest_transform`). -/
def Stratify_transform (p : StratifyParams) (value : Option NTree) (st : PStore)
    (pRef : Nat) : Except String StratResult :=
  let pd := getP st pRef
  if pd.source.isNone then
    .error "Stratify transform requires an upstream data source."
  else
    let fo := forkPulse st pRef ALL
    let outRef := fo.1
    let st1 := materializeP fo.2 outRef SOURCE
    let run := value.isNone || p.modified || pchanged pd ADD_REM
        || pmodified pd p.keyFields || pmodified pd p.parentKeyFields
    -- prevent upstream source pollution: out.source = out.source.slice()
    let st2 := updP st1 outRef (fun od => { od with source := od.source })
    if run then
      let src := (getP st2 outRef).source.getD []
      match (if src.length != 0 then stratifyBuild p.key p.parentKey src
             else .ok (NTree.tnode (Datum.obj none []) .fnil)) with
      | .error e => .error e
      | .ok tree =>
        .ok ⟨outRef, updP st2 outRef (fun od => { od with root := some tree }), some tree⟩
    else
      .ok ⟨outRef, updP st2 outRef (fun od => { od with root := value }), value⟩

/-! ## TreeLinks transform (source lines 408-459) -/

/-- Result of a TreeLinks recompute; the operator value is the current list
of link tuples. -/
structure TLResult where
  out : Nat
  st : PStore
  value : List Datum
  idc : Nat

/-- Membership of a (possibly unset) tuple id in a lookup table of ids. -/
def inLut (lut : List Nat) (i : Option Nat) : Bool :=
  match i with
  | some n => lut.contains n
  | none => false

/-- `TreeLinks.transform(_, pulse)` (source lines 421-458) over the pulse
store.  `pulse.visit(pulse.SOURCE, t => lut[tupleid(t)] = 1)` builds the id
lookup table from the source sequence; the `tree.each` walk over nodes with
a parent is `treeEdges`. -/
def TreeLinks_transform (value : List Datum) (st : PStore) (pRef : Nat) (idc : Nat) :
    Except String TLResult :=
  let pd := getP st pRef
  let fo := forkPulse st pRef NO_SOURCE
  let outRef := fo.1
  let st1 := fo.2
  match (if pd.source.isNone then none else pd.root) with
  | none => .error "TreeLinks transform requires a tree data source."
  | some tree =>
    if pchanged pd ADD_REM then
      -- remove previous links
      let st2 := updP st1 outRef (fun od => { od with rem := value })
      -- build lookup table of valid tuples
      let lut := (pd.source.getD []).filterMap tupleid
      -- generate links for all edges incident on valid tuples
      let gl := (treeEdges tree).foldl
        (fun acc e =>
          if inLut lut (tupleid e.2) && inLut lut (tupleid e.1) then
            let dc := ingest (Datum.link none e.1 e.2) acc.2
            (acc.1 ++ [dc.1], dc.2)
          else acc)
        (([] : List Datum), idc)
      let st3 := updP st2 outRef (fun od => { od with add := od.add ++ gl.1 })
      .ok ⟨outRef, st3, gl.1, gl.2⟩
    else if pchanged pd MOD then
      -- gather links incident on modified tuples
      let lut := pd.mod.filterMap tupleid
      let mods := value.filter (fun l =>
        match l with
        | Datum.link _ s t => inLut lut (tupleid s) || inLut lut (tupleid t)
        | _ => false)
      let st2 := updP st1 outRef (fun od => { od with mod := od.mod ++ mods })
      .ok ⟨outRef, st2, value, idc⟩
    else
      .ok ⟨outRef, st1, value, idc⟩

/-! ## HierarchyLayout family (source lines 146-187, 389-399, 546-564) -/

/-- The external d3 layout object: applying one configuration parameter by
name/value (`layout[p](_[p])`, which for Treemap's `method` may raise), and
running the layout on the root (which may throw — the geometry itself is an
external collaborator). -/
structure D3Layout where
  setp : String → String → Except String Unit
  run : NTree → Except String NTree

/-- `setParams(layout, params, _)` (source lines 174-179): for each declared
parameter name present in the arguments, apply it to the layout object. -/
def setParamsOn (layout : D3Layout) (present : String → Option String) :
    List String → Except String Unit
  | [] => .ok ()
  | q :: rest =>
    match present q with
    | some v =>
      match layout.setp q v with
      | .error e => .error e
      | .ok _ => setParamsOn layout present rest
    | none => setParamsOn layout present rest

/-- Parameters common to the HierarchyLayout transforms that the control
flow reads: the layout `method` and the round's `_.modified()`. -/
structure HLParams where
  method : Option String := none
  modified : Bool := false

/-- Result of a HierarchyLayout recompute: the surfaced pulse or error, and
the operator's stored value after the run. -/
structure HLResult where
  res : Except String PulseData
  value : Option NTree
deriving Repr

/-- `HierarchyLayout.transform(_, pulse)` (source lines 151-172), shared by
Pack, Partition, Tree and Treemap via their `layout`/`params`/`fields`
properties.  `root.sum`/`root.count`/`root.sort` and the `separation`
configuration mutate the external d3 tree and layout objects and have no
engine-visible state; `root.each(setFields)` writes layout outputs onto the
tuples' own fields.  The try/catch around `this.value = layout(root)`
rethrows via `error(err)` and leaves `this.value` unassigned. -/
def HierarchyLayout_transform (cname : String)
    (layoutGen : Option String → Except String D3Layout)
    (params : List String) (present : String → Option String)
    (fieldsAs : List String) (p : HLParams) (value : Option NTree)
    (pd : PulseData) : HLResult :=
  if pd.source.isNone || pd.root.isNone then
    ⟨.error (cname ++ " transform requires a backing tree data source."), value⟩
  else
    match layoutGen p.method with
    | .error e => ⟨.error e, value⟩
    | .ok layout =>
      match setParamsOn layout present params with
      | .error e => ⟨.error e, value⟩
      | .ok _ =>
        match layout.run (pd.root.getD (NTree.tnode (Datum.gen none none) .fnil)) with
        | .error e => ⟨.error e, value⟩
        | .ok t =>
          ⟨.ok (pmodifies (pmodifies (preflow pd p.modified) fieldsAs) ["leaf"]), some t⟩

/-- The external d3 `tree()` layout object (geometry out of scope). -/
def d3TidyLayout : D3Layout := ⟨fun _ _ => .ok (), fun t => .ok t⟩

/-- The external d3 `cluster()` layout object (geometry out of scope). -/
def d3ClusterLayout : D3Layout := ⟨fun _ _ => .ok (), fun t => .ok t⟩

/-- `Tree.layout(method)` (source lines 393-396): `Layouts` holds `tidy` and
`cluster`; any other method name raises. -/
def Tree_layout (method : Option String) : Except String D3Layout :=
  let m := method.getD "tidy"
  if m = "tidy" then .ok d3TidyLayout
  else if m = "cluster" then .ok d3ClusterLayout
  else .error ("Unrecognized Tree layout method: " ++ m)

/-- The keys of the `Tiles` table (source lines 461-468). -/
def TreemapTiles : List String :=
  ["binary", "dice", "slice", "slicedice", "squarify", "resquarify"]

/-- The `x.method` setter installed by `Treemap.layout()` (source lines
557-559): unknown tile names raise. -/
def Treemap_setMethod (m : String) : Except String Unit :=
  if TreemapTiles.contains m then .ok ()
  else .error ("Unrecognized Treemap layout method: " ++ m)

/-- `Treemap.layout()` (source lines 551-561): the layout object whose
`method` parameter setter validates the tile name. -/
def Treemap_layout : D3Layout :=
  ⟨fun q v => if q = "method" then Treemap_setMethod v else .ok (), fun t => .ok t⟩

/-- `Tree.params` (source line 397). -/
def Tree_params : List String := ["size", "nodeSize"]

/-- `Tree.fields` (`Output$1`, source line 339). -/
def Tree_fields : List String := ["x", "y", "depth", "children"]

/-! ## View scale accessor (source: part_000) -/

/-- Decidable equality for results of fallible code. -/
instance instDecidableEqExcept {ε α : Type} [DecidableEq ε] [DecidableEq α] :
    DecidableEq (Except ε α) := fun x y =>
  match x, y with
  | .ok a, .ok b =>
    if h : a = b then isTrue (by rw [h]) else isFalse (by intro he; cases he; exact h rfl)
  | .error a, .error b =>
    if h : a = b then isTrue (by rw [h]) else isFalse (by intro he; cases he; exact h rfl)
  | .ok _, .error _ => isFalse (by intro he; cases he)
  | .error _, .ok _ => isFalse (by intro he; cases he)

/-- An operator as seen from the runtime's scales map: its current value. -/
structure OpNode (α : Type) where
  value : α
deriving DecidableEq, Repr

/-- `scale(name)` (part_000 lines 3-9): raise unless the runtime's scales map
has the name, otherwise return that scale operator's current value.  The
second component is the runtime's scales map after the call. -/
def scale {α : Type} (scales : List (String × OpNode α)) (name : String) :
    Except String α × List (String × OpNode α) :=
  match alookup name scales with
  | none => (.error ("Unrecognized scale or projection: " ++ name), scales)
  | some op => (.ok op.value, scales)

/-! ## Selection test (vega-selections, lines 147-264) -/

/-- A scalar field value: string, number (dates are coerced to numbers by
the source before comparison) or boolean. -/
inductive SelScalar where
  | s : String → SelScalar
  | n : Int → SelScalar
  | b : Bool → SelScalar
deriving DecidableEq, Repr

/-- An entry value: a single scalar or an array of scalars (enumerated
values or range endpoints). -/
inductive SelVal where
  | scalar : SelScalar → SelVal
  | arr : List SelScalar → SelVal
deriving DecidableEq, Repr

/-- A field definition of a selection entry: the `type` tag and the
registered getter. -/
structure FieldDef (α : Type) where
  ftype : String
  fget : α → SelScalar

/-- One stored selection entry `{unit, fields, values}`. -/
structure SelEntry (α : Type) where
  unit : String
  fields : List (FieldDef α)
  values : List SelVal

/-- vega-util `inrange(value, range, left, right)` on numbers: clamp the
range endpoints into order and compare with the requested strictness;
non-numeric operands compare false (JS NaN comparisons). -/
def inrange (dval : SelScalar) (v : SelVal) (left right : Bool) : Bool :=
  match v with
  | .arr l =>
    match dval, l.head?, l.getLast? with
    | .n x, some (.n d0), some (.n d1) =>
      let lo := if d0 > d1 then d1 else d0
      let hi := if d0 > d1 then d0 else d1
      (if left then lo ≤ x else lo < x) && (if right then x ≤ hi else x < hi)
    | _, _, _ => false
  | _ => false

/-- `testPoint(datum, entry)` (selections lines 173-207): every field must
match — enumerated fields by membership/equality, range fields by `inrange`
with the strictness encoded in the type tag; unknown type tags perform no
check.  Fields and values are parallel arrays. -/
def testPoint {α : Type} (datum : α) (entry : SelEntry α) : Bool :=
  (entry.fields.zip entry.values).all (fun fv =>
    let dval := fv.1.fget datum
    if fv.1.ftype = "E" then
      match fv.2 with
      | .arr l => l.contains dval
      | .scalar c => dval == c
    else if fv.1.ftype = "R" then inrange dval fv.2 true true
    else if fv.1.ftype = "R-RE" then inrange dval fv.2 true false
    else if fv.1.ftype = "R-E" then inrange dval fv.2 false false
    else if fv.1.ftype = "R-LE" then inrange dval fv.2 false true
    else true)

/-- The per-unit index (`data['index:unit']`): number of units and the tuple
count per unit. -/
structure UnitIdx where
  size : Nat
  counts : String → Int

/-- The plain loop of `selectionTest` (no unit index, or not intersecting):
`if (intersect ^ b) return b`, modelled with `some` for an early return. -/
def selLoop {α : Type} (intersect : Bool) (datum : α) :
    List (SelEntry α) → Option Bool
  | [] => none
  | e :: rest =>
    let b := testPoint datum e
    if intersect != b then some b else selLoop intersect datum rest

/-- The unit-indexed loop of `selectionTest` (multi selections union within
a unit and intersect across units), carrying the per-unit miss counts. -/
def selUnitLoop {α : Type} (uidx : UnitIdx) (datum : α)
    (miss : List (String × Int)) : List (SelEntry α) → Option Bool
  | [] => none
  | e :: rest =>
    let count := (alookup e.unit miss).getD 0
    if count = -1 then selUnitLoop uidx datum miss rest
    else
      let b := testPoint datum e
      let miss1 := (e.unit, if b then (-1 : Int) else count + 1) :: miss
      if b && uidx.size == 1 then some true
      else if !b && count + 1 == uidx.counts e.unit then some false
      else selUnitLoop uidx datum miss1 rest

/-- `selectionTest(name, datum, op)` (selections lines 223-264) with the
store contents and unit index passed explicitly (`this.context.data[name]`).
The final `return n && intersect` is the JS truthiness of that expression. -/
def selectionTest {α : Type} (entries : List (SelEntry α)) (uidx : Option UnitIdx)
    (datum : α) (op : String) : Bool :=
  let intersect := op == "intersect"
  let res :=
    match uidx with
    | some u => if intersect then selUnitLoop u datum [] entries
                else selLoop intersect datum entries
    | none => selLoop intersect datum entries
  match res with
  | some b => b
  | none => entries.length != 0 && intersect

/-! ## Operator graph and ranking.  The graph/ranking code is in the
dataflow core, not in the shipped sources; it is modelled from the spec
(§4.3 "Operator Graph & Ranking"). -/

/-- Modelled from the spec: the operator graph — registered operator ids,
parameter→dependent edges, and the rank of each operator. -/
structure GraphState where
  ops : List Nat
  edges : List (Nat × Nat)
  rnk : Nat → Nat

/-- The rank invariant (spec §3/§8): every edge goes from lower to strictly
higher rank. -/
def RankInv (gs : GraphState) : Prop :=
  ∀ e ∈ gs.edges, gs.rnk e.1 < gs.rnk e.2

/-- Well-formedness: edges connect registered operators. -/
def EdgesWF (gs : GraphState) : Prop :=
  ∀ e ∈ gs.edges, e.1 ∈ gs.ops ∧ e.2 ∈ gs.ops

/-- One relaxation pass over the edge list for the forward re-numbering:
raise the candidate distance of `v` along every edge into `v` whose source
already has a distance. -/
def relaxEdges (d : Nat → Option Nat) (v : Nat) :
    List (Nat × Nat) → Option Nat → Option Nat
  | [], acc => acc
  | e :: rest, acc =>
    relaxEdges d v rest
      (if e.2 = v then
        match d e.1 with
        | some k => some (max (acc.getD 0) (k + 1))
        | none => acc
      else acc)

/-- One step of the distance iteration. -/
def stepD (edges : List (Nat × Nat)) (d : Nat → Option Nat) : Nat → Option Nat :=
  fun v => relaxEdges d v edges (d v)

/-- Iterate the distance step. -/
def iterD (edges : List (Nat × Nat)) : Nat → (Nat → Option Nat) → Nat → Option Nat
  | 0, d => d
  | n + 1, d => iterD edges n (stepD edges d)

/-- Modelled from the spec: the forward walk of the re-ranking — longest
edge-distance from the connection source over the operators transitively
reachable through existing edges, iterated to a fixpoint. -/
def rerankDist (gs : GraphState) (s : Nat) : Nat → Option Nat :=
  iterD gs.edges (gs.ops.length + 1) (fun v => if v = s then some 0 else none)

/-- The largest rank currently assigned to a registered operator. -/
def maxRank (gs : GraphState) : Nat :=
  (gs.ops.map gs.rnk).foldr (fun a b => max a b) 0

/-- Modelled from the spec: re-rank after a rank-violating `connect` —
forward topological re-numbering starting at `s` over the reachable
operators, placing them above every existing rank; an operator reachable
from itself keeps the distances growing, which the fixpoint check reports as
a fatal cycle error. -/
def rerank (gs : GraphState) (s : Nat) : Except String GraphState :=
  let d := rerankDist gs s
  if gs.ops.all (fun v => stepD gs.edges d v == d v) then
    .ok { gs with rnk := fun v =>
      (match d v with
       | some k => maxRank gs + 1 + k
       | none => gs.rnk v) }
  else
    .error "Cycle detected in dataflow graph."

/-- Modelled from the spec: `addOperator(op, params)` — insert the node,
wire an edge from each operator-valued parameter, and assign a rank one
greater than the maximum parameter rank (0 when there are none). -/
def addOperator (gs : GraphState) (id : Nat) (params : List Nat) : GraphState :=
  { ops := gs.ops ++ [id]
    edges := gs.edges ++ params.map (fun q => (q, id))
    rnk := fun v =>
      if v = id then (params.map gs.rnk).foldr (fun a b => max a b) 0 + 1
      else gs.rnk v }

/-- Modelled from the spec: `connect(source, target)` — add the edge; when
the target's rank does not exceed the source's, re-rank from the source. -/
def connect (gs : GraphState) (s t : Nat) : Except String GraphState :=
  let gs1 := { gs with edges := gs.edges ++ [(s, t)] }
  if gs.rnk t ≤ gs.rnk s then rerank gs1 s else .ok gs1

/-- Modelled from the spec: removing an operator detaches all its edges
first; the survivors keep their ranks. -/
def removeOperator (gs : GraphState) (id : Nat) : GraphState :=
  { ops := gs.ops.erase id
    edges := gs.edges.filter (fun e => !(e.1 == id || e.2 == id))
    rnk := gs.rnk }

/-- The graph mutations of spec §4.3. -/
inductive GraphMutation where
  | addOp : Nat → List Nat → GraphMutation
  | connectEdge : Nat → Nat → GraphMutation
  | removeOp : Nat → GraphMutation

/-- Apply one graph mutation. -/
def applyMutation (gs : GraphState) : GraphMutation → Except String GraphState
  | .addOp id ps => .ok (addOperator gs id ps)
  | .connectEdge s t => connect gs s t
  | .removeOp id => .ok (removeOperator gs id)

/-- Validity of a mutation request: a fresh id with registered parameter
operators for `addOp`, registered endpoints for `connectEdge`. -/
def MutOK (gs : GraphState) : GraphMutation → Prop
  | .addOp id ps => id ∉ gs.ops ∧ ∀ q ∈ ps, q ∈ gs.ops
  | .connectEdge s t => s ∈ gs.ops ∧ t ∈ gs.ops
  | .removeOp _ => True

/-! ## Concrete inputs used by witnesses and counterexamples -/

/-- A Nest parameter set grouping by field `g` with `generate: true`. -/
def c7params : NestParams := ⟨[attrOf "g"], true, false⟩

/-- A store with one source pulse of two ingested records for the Nest run. -/
def c7store : PStore :=
  [(1, { source := some [Datum.obj (some 11) [("g", "a")], Datum.obj (some 12) [("g", "b")]] })]

/-- A parent tuple for the TreeLinks run. -/
def tlParent : Datum := .obj (some 1) []

/-- A child tuple for the TreeLinks run. -/
def tlChild : Datum := .obj (some 2) []

/-- A two-node backing tree for the TreeLinks run. -/
def tlTree : NTree := .tnode tlParent (.fcons (.tnode tlChild .fnil) .fnil)

/-- A store with one pulse carrying an addition, a source and a tree root. -/
def tlStore : PStore :=
  [(1, { add := [tlParent], source := some [tlParent, tlChild], root := some tlTree })]

/-- A pulse with a backing tree source for layout runs. -/
def c5pd : PulseData :=
  { source := some [], root := some (.tnode (Datum.gen none none) .fnil) }

/-- A runtime scales map with one scale named `x`. -/
def c5scales : List (String × OpNode String) := [("x", ⟨"linear"⟩)]

/-- An external layout whose computation throws. -/
def c3badLayout : D3Layout := ⟨fun _ _ => .ok (), fun _ => .error "boom"⟩

/-- A layout generator returning the throwing layout. -/
def c3gen : Option String → Except String D3Layout := fun _ => .ok c3badLayout

/-- A store with a single no-op pulse (empty deltas, empty fields, a
materialized empty source). -/
def w24store : PStore := [(1, { source := some [] })]

/-- A one-node stored tree value. -/
def w24tree : NTree := .tnode (Datum.obj none []) .fnil

/-- A one-field enumerated selection entry matching data equal to 3. -/
def w10entry : SelEntry Nat :=
  ⟨"u0", [⟨"E", fun x => SelScalar.n (Int.ofNat x)⟩], [SelVal.scalar (SelScalar.n 3)]⟩

/-- A two-operator graph with equal ranks and no edges. -/
def w1graph : GraphState := ⟨[5, 9], [], fun _ => 0⟩

/-- A single parity key for the nest-grouping witness. -/
def w9keys : List (Nat → String) := [fun x => if x % 2 = 0 then "even" else "odd"]

/-- A small input array for the nest-grouping witness. -/
def w9arr : List Nat := [1, 2, 3, 4]

/-- Concrete Stratify parameters keyed by `id`/`pid` attributes. -/
def c2sp : StratifyParams := ⟨attrOf "id", ["id"], attrOf "pid", ["pid"], false⟩

/-- Concrete Nest parameters with no keys and no generation. -/
def c4np : NestParams := ⟨[], false, false⟩

/-- Growth order on optional distances: a defined distance stays defined and
can only grow. -/
def OLe (x y : Option Nat) : Prop :=
  ∀ k, x = some k → ∃ m, y = some m ∧ k ≤ m

/-! # Theorems -/

/-! ## General helper lemmas -/

/-- Lookup fails exactly when the key is absent. -/
theorem alookup_eq_none_iff {κ β : Type} [DecidableEq κ] (k : κ) :
    ∀ l : List (κ × β), alookup k l = none ↔ k ∉ l.map Prod.fst
  | [] => by simp [alookup]
  | p :: rest => by
    by_cases h : p.1 = k
    · simp [alookup, h]
    · have hk : ¬k = p.1 := fun hk => h hk.symm
      simp [alookup, h, alookup_eq_none_iff k rest, hk]

/-- Every element is bounded by the max-fold of its list. -/
theorem le_foldr_max (x : Nat) :
    ∀ l : List Nat, x ∈ l → x ≤ l.foldr (fun a b => max a b) 0
  | _ :: rest, h => by
    rcases List.mem_cons.mp h with rfl | h'
    · exact Nat.le_max_left _ _
    · exact Nat.le_trans (le_foldr_max x rest h') (Nat.le_max_right _ _)

/-- A fresh pulse reference differs from every bound reference. -/
theorem freshPid_ne {st : PStore} {r : Nat} (h : r ∈ st.map Prod.fst) :
    freshPid st ≠ r := by
  have hle : r ≤ maxPid st := le_foldr_max r _ h
  have hf : freshPid st = maxPid st + 1 := rfl
  intro he
  omega

/-- Consing a binding for a different key does not change a lookup. -/
theorem alookup_cons_ne {κ β : Type} [DecidableEq κ] {k q : κ} (v : β)
    (l : List (κ × β)) (h : k ≠ q) : alookup q ((k, v) :: l) = alookup q l := by
  simp [alookup, h]

/-- Writing through one reference leaves lookups through others unchanged. -/
theorem updP_alookup_ne {st : PStore} {r q : Nat} (f : PulseData → PulseData)
    (h : r ≠ q) : alookup q (updP st r f) = alookup q st :=
  alookup_cons_ne _ _ h

/-- Reading back an in-place write. -/
theorem getP_updP_self (st : PStore) (r : Nat) (f : PulseData → PulseData) :
    getP (updP st r f) r = f (getP st r) := by
  simp [getP, updP, alookup]

/-- Reading a freshly allocated binding. -/
theorem getP_cons_self (st : PStore) (r : Nat) (pd : PulseData) :
    getP ((r, pd) :: st) r = pd := by
  simp [getP, alookup]

/-! ## Claim C8 -/

/-- Claim C8: the view's `scale(name)` accessor raises exactly when `name`
is not a key of the runtime's scales map; when the name is present it
returns that scale operator's current value; in either case the runtime's
scales map is left unchanged. -/
theorem claim_C8_scale_accessor {α : Type} (scales : List (String × OpNode α))
    (name : String) :
    (scale scales name).2 = scales
    ∧ ((∃ e, (scale scales name).1 = Except.error e) ↔ alookup name scales = none)
    ∧ (alookup name scales = none ↔ name ∉ scales.map Prod.fst)
    ∧ (∀ op, alookup name scales = some op →
        (scale scales name).1 = Except.ok op.value) := by
  refine ⟨?_, ?_, alookup_eq_none_iff name scales, ?_⟩
  · cases h : alookup name scales <;> simp [scale, h]
  · cases h : alookup name scales <;> simp [scale, h]
  · intro op h
    simp [scale, h]

/-- Witness for claim C8 at a concrete runtime: querying the registered
scale `x` succeeds with its value and leaves the map unchanged. -/
theorem claim_C8_scale_accessor_witness :
    (scale c5scales "x").1 = Except.ok "linear" ∧ (scale c5scales "x").2 = c5scales :=
  ⟨(claim_C8_scale_accessor c5scales "x").2.2.2 ⟨"linear"⟩ (by decide),
   (claim_C8_scale_accessor c5scales "x").1⟩

/-! ## Claim C10 -/

/-- The intersect loop scans for the first miss. -/
theorem selLoop_true_eq {α : Type} (d : α) :
    ∀ l : List (SelEntry α),
      selLoop true d l = if l.all (testPoint d) then none else some false
  | [] => by simp [selLoop]
  | e :: rest => by
    cases h : testPoint d e with
    | true => simp [selLoop, h, List.all_cons, selLoop_true_eq d rest]
    | false => simp [selLoop, h, List.all_cons]

/-- The union loop scans for the first match. -/
theorem selLoop_false_eq {α : Type} (d : α) :
    ∀ l : List (SelEntry α),
      selLoop false d l = if l.any (testPoint d) then some true else none
  | [] => by simp [selLoop]
  | e :: rest => by
    cases h : testPoint d e with
    | true => simp [selLoop, h, List.any_cons]
    | false => simp [selLoop, h, List.any_cons, selLoop_false_eq d rest]

/-- Claim C10: with no unit index, `selectionTest` is false on an empty
store for any op; with op `intersect` it holds exactly when the store is
non-empty and every entry passes `testPoint`; with any other op it holds
exactly when some entry passes `testPoint`. -/
theorem claim_C10_selection_test {α : Type} (entries : List (SelEntry α))
    (datum : α) (op : String) :
    (entries = [] → selectionTest entries none datum op = false)
    ∧ (selectionTest entries none datum "intersect"
        = (!entries.isEmpty && entries.all (testPoint datum)))
    ∧ (op ≠ "intersect" →
        selectionTest entries none datum op = entries.any (testPoint datum)) := by
  refine ⟨?_, ?_, ?_⟩
  · rintro rfl
    simp [selectionTest, selLoop]
  · cases hall : entries.all (testPoint datum) with
    | true =>
      cases entries with
      | nil => simp [selectionTest, selLoop]
      | cons e rest => simp [selectionTest, selLoop_true_eq, hall]
    | false =>
      simp [selectionTest, selLoop_true_eq, hall]
  · intro hop
    have hbeq : (op == "intersect") = false := by
      simp [hop]
    cases hany : entries.any (testPoint datum) with
    | true => simp [selectionTest, hbeq, selLoop_false_eq, hany]
    | false => simp [selectionTest, hbeq, selLoop_false_eq, hany]

/-- Witness for claim C10 at concrete stores: the empty store rejects the
datum under `union`, and a one-entry store answers `union` queries by
`testPoint`. -/
theorem claim_C10_selection_test_witness :
    selectionTest ([] : List (SelEntry Nat)) none 3 "union" = false
    ∧ selectionTest [w10entry] none 3 "union" = [w10entry].any (testPoint 3) :=
  ⟨(claim_C10_selection_test [] 3 "union").1 rfl,
   (claim_C10_selection_test [w10entry] 3 "union").2.2 (by decide)⟩

/-! ## Claim C6 -/

/-- A list of callbacks from a single sequence is internally ordered. -/
theorem pairwise_const_tag (t : VTag) :
    ∀ l : List (VTag × Datum), (∀ x ∈ l, x.1 = t) →
      l.Pairwise (fun a b => vtagRank a.1 ≤ vtagRank b.1)
  | [], _ => List.Pairwise.nil
  | x :: rest, h => by
    refine List.Pairwise.cons ?_
      (pairwise_const_tag t rest fun y hy => h y (List.mem_cons_of_mem _ hy))
    intro b hb
    rw [h x (List.mem_cons_self _ _), h b (List.mem_cons_of_mem _ hb)]

/-- Every element of one guarded visit block carries that block's tag. -/
theorem tag_of_mem_block {t : VTag} {l : List Datum} {c : Prop} [Decidable c] :
    ∀ x ∈ (if c then l.map (fun d => (t, d)) else []), x.1 = t := by
  split
  · intro x hx
    rcases List.mem_map.mp hx with ⟨d, _, rfl⟩
    rfl
  · intro x hx
    simp at hx

/-- Appending later blocks preserves the visit ordering. -/
theorem pairwise_rank_append {l1 l2 : List (VTag × Datum)}
    (h1 : l1.Pairwise (fun a b => vtagRank a.1 ≤ vtagRank b.1))
    (h2 : l2.Pairwise (fun a b => vtagRank a.1 ≤ vtagRank b.1))
    (hc : ∀ a ∈ l1, ∀ b ∈ l2, vtagRank a.1 ≤ vtagRank b.1) :
    (l1 ++ l2).Pairwise (fun a b => vtagRank a.1 ≤ vtagRank b.1) :=
  List.pairwise_append.mpr ⟨h1, h2, hc⟩

/-- Filtering one guarded visit block by a tag keeps all or nothing. -/
theorem filter_tag_block (t u : VTag) (l : List Datum) (c : Prop) [Decidable c] :
    ((if c then l.map (fun d => (t, d)) else []).filter (fun x => x.1 == u))
      = if t = u then (if c then l.map (fun d => (t, d)) else []) else [] := by
  by_cases htu : t = u
  · subst htu
    split <;> simp [List.filter_map, Function.comp_def]
  · have : (t == u) = false := by simp [htu]
    split <;> simp [List.filter_map, Function.comp_def, this, htu]

/-- Claim C6: one `visit` call enumerates the selected sequences in the
fixed order removals, additions, modifications, source.  The callback trace
is ordered by tag rank (so every rem callback precedes every add callback,
every add precedes every mod, every mod precedes every source), and
filtering the trace by tag recovers exactly the selected sequences. -/
theorem claim_C6_visit_order (pd : PulseData) (flags : Nat) :
    (pvisitTrace pd flags).Pairwise (fun a b => vtagRank a.1 ≤ vtagRank b.1)
    ∧ (pvisitTrace pd flags).filter (fun x => x.1 == VTag.vrem)
        = (if flags &&& REM != 0 then pd.rem.map (fun d => (VTag.vrem, d)) else [])
    ∧ (pvisitTrace pd flags).filter (fun x => x.1 == VTag.vadd)
        = (if flags &&& ADD != 0 then pd.add.map (fun d => (VTag.vadd, d)) else [])
    ∧ (pvisitTrace pd flags).filter (fun x => x.1 == VTag.vmod)
        = (if flags &&& MOD != 0 then pd.mod.map (fun d => (VTag.vmod, d)) else [])
    ∧ (pvisitTrace pd flags).filter (fun x => x.1 == VTag.vsrc)
        = (if flags &&& SOURCE != 0 then
            (pd.source.getD []).map (fun d => (VTag.vsrc, d)) else []) := by
  refine ⟨?_, ?_, ?_, ?_, ?_⟩
  · unfold pvisitTrace
    refine pairwise_rank_append (pairwise_rank_append (pairwise_rank_append
      (pairwise_const_tag _ _ tag_of_mem_block)
      (pairwise_const_tag _ _ tag_of_mem_block) ?_)
      (pairwise_const_tag _ _ tag_of_mem_block) ?_)
      (pairwise_const_tag _ _ tag_of_mem_block) ?_
    · intro a ha b hb
      rw [tag_of_mem_block a ha, tag_of_mem_block b hb]
      decide
    · intro a ha b hb
      rw [tag_of_mem_block b hb]
      rcases List.mem_append.mp ha with h | h
      · rw [tag_of_mem_block a h]; decide
      · rw [tag_of_mem_block a h]; decide
    · intro a ha b hb
      rw [tag_of_mem_block b hb]
      rcases List.mem_append.mp ha with h | h
      · rcases List.mem_append.mp h with h' | h'
        · rw [tag_of_mem_block a h']; decide
        · rw [tag_of_mem_block a h']; decide
      · rw [tag_of_mem_block a h]; decide
  · simp only [pvisitTrace, List.filter_append, filter_tag_block]
    simp
  · simp only [pvisitTrace, List.filter_append, filter_tag_block]
    simp
  · simp only [pvisitTrace, List.filter_append, filter_tag_block]
    simp
  · simp only [pvisitTrace, List.filter_append, filter_tag_block]
    simp

/-! ## Claim C7 -/

/-- Counterexample to claim C7: `Nest.Definition` does not declare the
`generates` metadata flag, yet with `generate: true` the Nest recompute
ingests brand-new records (the generated internal nodes receive fresh tuple
identities 100, 101, 102 here) and pushes them into its output pulse's add
sequence.  So not every identity-introducing transform in this module
declares `generates`. -/
theorem claim_C7_counterexample :
    Nest_Definition_metadata.generates = false
    ∧ ((Nest_transform c7params none c7store 1 100).toOption.map
        (fun r => ((getP r.st r.out).add.map tupleid, r.idc)))
      = some ([some 100, some 101, some 102], 103) :=
  ⟨rfl, by decide⟩

/-- Claim C7 as amended: `TreeLinks` (whose recompute always ingests the
link records it adds) declares `generates`, but `Nest` declares only
`treesource` and `changes`, not `generates`, even though with
`generate: true` it also introduces new tuple identities.  The TreeLinks run
below ingests a fresh link tuple (identity 50) into its output's add
sequence. -/
theorem claim_C7_amended :
    TreeLinks_Definition_metadata.generates = true
    ∧ Nest_Definition_metadata.generates = false
    ∧ Nest_Definition_metadata.treesource = true
    ∧ Nest_Definition_metadata.changes = true
    ∧ ((TreeLinks_transform [] tlStore 1 50).toOption.map
        (fun r => ((getP r.st r.out).add.map tupleid, r.value.length)))
      = some ([some 50], 1) :=
  ⟨rfl, rfl, rfl, rfl, by decide⟩

/-! ## Claim C5 -/

/-- Counterexample to claim C5: an unrecognized layout-method name and an
unknown scale reference are not raised while the graph is being built — the
transform and accessor are constructible with the bad names, and the errors
surface only at run time: the Tree transform's evaluation (the embedded
recompute) returns the configuration error, the Treemap `method` setter
raises when `setParams` runs inside the Treemap recompute, and the scale
error is raised at value-query time. -/
theorem claim_C5_counterexample :
    (HierarchyLayout_transform "Tree" Tree_layout Tree_params (fun _ => none)
        Tree_fields { method := some "foo" } none c5pd).res
      = Except.error "Unrecognized Tree layout method: foo"
    ∧ Treemap_setMethod "foo" = Except.error "Unrecognized Treemap layout method: foo"
    ∧ (scale c5scales "nosuch").1
      = Except.error "Unrecognized scale or projection: nosuch" := by
  refine ⟨by decide, by decide, by decide⟩

/-- Claim C5 as amended: unrecognized layout-method names and unknown
scale/projection references are configuration errors raised synchronously at
run time — when the layout transform evaluates, or when the scale value is
queried — not at graph construction; the operator's stored value is left
unchanged by the failed evaluation. -/
theorem claim_C5_amended :
    (∀ (m : String) (pd : PulseData) (value : Option NTree) (params : List String)
        (present : String → Option String) (p : HLParams),
      m ≠ "tidy" → m ≠ "cluster" → p.method = some m →
      pd.source.isSome → pd.root.isSome →
      (HierarchyLayout_transform "Tree" Tree_layout params present Tree_fields
          p value pd).res
        = Except.error ("Unrecognized Tree layout method: " ++ m)
      ∧ (HierarchyLayout_transform "Tree" Tree_layout params present Tree_fields
          p value pd).value = value)
    ∧ (∀ m : String, m ∉ TreemapTiles →
        Treemap_setMethod m = Except.error ("Unrecognized Treemap layout method: " ++ m))
    ∧ (∀ (α : Type) (scales : List (String × OpNode α)) (name : String),
        alookup name scales = none →
        (scale scales name).1 = Except.error ("Unrecognized scale or projection: " ++ name)
        ∧ (scale scales name).2 = scales) := by
  refine ⟨?_, ?_, ?_⟩
  · intro m pd value params present p h1 h2 hm hs hr
    obtain ⟨xs, hxs⟩ := Option.isSome_iff_exists.mp hs
    obtain ⟨xr, hxr⟩ := Option.isSome_iff_exists.mp hr
    constructor <;>
      simp [HierarchyLayout_transform, hxs, hxr, Tree_layout, hm, h1, h2]
  · intro m hm
    have hc : TreemapTiles.contains m = false := by simpa using hm
    unfold Treemap_setMethod
    rw [hc]
    simp
  · intro α scales name h
    simp [scale, h]

/-- Witness for the amended claim C5 at concrete inputs: method `foo` on a
Tree transform with a valid backing tree errors at evaluation leaving the
value unchanged, tile `foo` is rejected by the Treemap method setter, and an
unregistered scale name errors at query time. -/
theorem claim_C5_amended_witness :
    ((HierarchyLayout_transform "Tree" Tree_layout Tree_params (fun _ => none)
        Tree_fields { method := some "foo" } none c5pd).res
      = Except.error "Unrecognized Tree layout method: foo")
    ∧ Treemap_setMethod "foo" = Except.error "Unrecognized Treemap layout method: foo"
    ∧ (scale c5scales "nosuch").1
      = Except.error "Unrecognized scale or projection: nosuch" :=
  ⟨(claim_C5_amended.1 "foo" c5pd none Tree_params (fun _ => none) _
      (by decide) (by decide) rfl (by decide) (by decide)).1,
   claim_C5_amended.2.1 "foo" (by decide),
   (claim_C5_amended.2.2 String c5scales "nosuch" (by decide)).1⟩

/-! ## Claim C3 -/

/-- Claim C3: when a hierarchy layout computation throws (the try/catch
around `this.value = layout(root)`), the error is surfaced as the transform
result and the operator's prior stored value is left unchanged.  This covers
HierarchyLayout and all its subclasses, which share this `transform` and
differ only in the `layoutGen`/`params`/`fields` arguments. -/
theorem claim_C3_layout_error_preserves_value (cname : String)
    (layoutGen : Option String → Except String D3Layout) (params : List String)
    (present : String → Option String) (fieldsAs : List String) (p : HLParams)
    (value : Option NTree) (pd : PulseData) (layout : D3Layout) (e : String)
    (hs : pd.source.isSome) (hr : pd.root.isSome)
    (hgen : layoutGen p.method = Except.ok layout)
    (hset : setParamsOn layout present params = Except.ok ())
    (hrun : layout.run (pd.root.getD (NTree.tnode (Datum.gen none none) .fnil))
      = Except.error e) :
    HierarchyLayout_transform cname layoutGen params present fieldsAs p value pd
      = ⟨Except.error e, value⟩ := by
  obtain ⟨xs, hxs⟩ := Option.isSome_iff_exists.mp hs
  obtain ⟨xr, hxr⟩ := Option.isSome_iff_exists.mp hr
  rw [hxr] at hrun
  simp only [Option.getD_some] at hrun
  simp [HierarchyLayout_transform, hxs, hxr, hgen, hset, hrun]

/-- Witness for claim C3: a layout that throws `boom` on a valid backing
tree surfaces `boom` and leaves the prior (empty) stored value unchanged. -/
theorem claim_C3_layout_error_preserves_value_witness :
    HierarchyLayout_transform "Pack" c3gen [] (fun _ => none) [] {} none c5pd
      = ⟨Except.error "boom", none⟩ :=
  claim_C3_layout_error_preserves_value "Pack" c3gen [] (fun _ => none) [] {}
    none c5pd c3badLayout "boom" (by decide) (by decide) rfl rfl (by decide)

/-! ## Claim C2 -/

/-- Materializing one pulse leaves lookups through other references alone. -/
theorem materializeP_alookup_ne {st : PStore} {r q : Nat} {flags : Nat}
    (h : r ≠ q) : alookup q (materializeP st r flags) = alookup q st := by
  unfold materializeP
  split
  · exact updP_alookup_ne _ h
  · rfl

/-- Frame lemma for the Nest recompute: the output pulse is a fresh
reference and the input pulse binding is untouched. -/
theorem Nest_frame (p : NestParams) (value : Option NTree) (st : PStore)
    (pRef idc : Nat) (r : NestResult) (hmem : pRef ∈ st.map Prod.fst)
    (hr : Nest_transform p value st pRef idc = Except.ok r) :
    r.out ≠ pRef ∧ alookup pRef r.st = alookup pRef st := by
  have hne : freshPid st ≠ pRef := freshPid_ne hmem
  cases hsrc : (getP st pRef).source.isNone with
  | true =>
    simp [Nest_transform, hsrc] at hr
  | false =>
    simp only [Nest_transform, hsrc, Bool.false_eq_true, if_false, clonePulse] at hr
    split at hr
    · split at hr
      · split at hr
        · cases hr
          refine ⟨hne, ?_⟩
          rw [updP_alookup_ne _ hne, updP_alookup_ne _ hne, updP_alookup_ne _ hne]
          exact alookup_cons_ne _ _ hne
        · cases hr
          refine ⟨hne, ?_⟩
          rw [updP_alookup_ne _ hne, updP_alookup_ne _ hne]
          exact alookup_cons_ne _ _ hne
      · split at hr
        · cases hr
          refine ⟨hne, ?_⟩
          rw [updP_alookup_ne _ hne, updP_alookup_ne _ hne]
          exact alookup_cons_ne _ _ hne
        · cases hr
          refine ⟨hne, ?_⟩
          rw [updP_alookup_ne _ hne]
          exact alookup_cons_ne _ _ hne
    · cases hr
      refine ⟨hne, ?_⟩
      rw [updP_alookup_ne _ hne]
      exact alookup_cons_ne _ _ hne

/-- Frame lemma for the Stratify recompute. -/
theorem Stratify_frame (p : StratifyParams) (value : Option NTree) (st : PStore)
    (pRef : Nat) (r : StratResult) (hmem : pRef ∈ st.map Prod.fst)
    (hr : Stratify_transform p value st pRef = Except.ok r) :
    r.out ≠ pRef ∧ alookup pRef r.st = alookup pRef st := by
  have hne : freshPid st ≠ pRef := freshPid_ne hmem
  cases hsrc : (getP st pRef).source.isNone with
  | true =>
    simp [Stratify_transform, hsrc] at hr
  | false =>
    simp only [Stratify_transform, hsrc, Bool.false_eq_true, if_false, forkPulse] at hr
    split at hr
    · split at hr
      · cases hr
      · cases hr
        refine ⟨hne, ?_⟩
        rw [updP_alookup_ne _ hne, updP_alookup_ne _ hne, materializeP_alookup_ne hne]
        exact alookup_cons_ne _ _ hne
    · cases hr
      refine ⟨hne, ?_⟩
      rw [updP_alookup_ne _ hne, updP_alookup_ne _ hne, materializeP_alookup_ne hne]
      exact alookup_cons_ne _ _ hne

/-- Frame lemma for the TreeLinks recompute. -/
theorem TreeLinks_frame (value : List Datum) (st : PStore) (pRef idc : Nat)
    (r : TLResult) (hmem : pRef ∈ st.map Prod.fst)
    (hr : TreeLinks_transform value st pRef idc = Except.ok r) :
    r.out ≠ pRef ∧ alookup pRef r.st = alookup pRef st := by
  have hne : freshPid st ≠ pRef := freshPid_ne hmem
  simp only [TreeLinks_transform, forkPulse] at hr
  split at hr
  · cases hr
  · split at hr
    · cases hr
      refine ⟨hne, ?_⟩
      rw [updP_alookup_ne _ hne, updP_alookup_ne _ hne]
      exact alookup_cons_ne _ _ hne
    · split at hr
      · cases hr
        refine ⟨hne, ?_⟩
        rw [updP_alookup_ne _ hne]
        exact alookup_cons_ne _ _ hne
      · cases hr
        refine ⟨hne, ?_⟩
        exact alookup_cons_ne _ _ hne

/-- Claim C2: the Nest, Stratify and TreeLinks recomputes each return a
pulse derived by clone or fork — a reference distinct from the input pulse —
and after the transform runs, the input pulse's binding (in particular its
add, rem and mod sequences) is unchanged from what it was on entry. -/
theorem claim_C2_pulse_isolation :
    (∀ (p : NestParams) (value : Option NTree) (st : PStore) (pRef idc : Nat),
      pRef ∈ st.map Prod.fst →
      match Nest_transform p value st pRef idc with
      | .ok r => r.out ≠ pRef ∧ alookup pRef r.st = alookup pRef st
      | .error _ => True)
    ∧ (∀ (p : StratifyParams) (value : Option NTree) (st : PStore) (pRef : Nat),
      pRef ∈ st.map Prod.fst →
      match Stratify_transform p value st pRef with
      | .ok r => r.out ≠ pRef ∧ alookup pRef r.st = alookup pRef st
      | .error _ => True)
    ∧ (∀ (value : List Datum) (st : PStore) (pRef idc : Nat),
      pRef ∈ st.map Prod.fst →
      match TreeLinks_transform value st pRef idc with
      | .ok r => r.out ≠ pRef ∧ alookup pRef r.st = alookup pRef st
      | .error _ => True) := by
  refine ⟨?_, ?_, ?_⟩
  · intro p value st pRef idc hmem
    cases hres : Nest_transform p value st pRef idc with
    | ok r => exact Nest_frame p value st pRef idc r hmem hres
    | error e => trivial
  · intro p value st pRef hmem
    cases hres : Stratify_transform p value st pRef with
    | ok r => exact Stratify_frame p value st pRef r hmem hres
    | error e => trivial
  · intro value st pRef idc hmem
    cases hres : TreeLinks_transform value st pRef idc with
    | ok r => exact TreeLinks_frame value st pRef idc r hmem hres
    | error e => trivial

/-- Witness for claim C2 at concrete stores: a Nest run, a Stratify run and
a TreeLinks run each leave the input pulse binding unchanged and answer with
a fresh output reference. -/
theorem claim_C2_pulse_isolation_witness :
    (match Nest_transform c4np none w24store 1 0 with
      | .ok r => r.out ≠ 1 ∧ alookup 1 r.st = alookup 1 w24store
      | .error _ => True)
    ∧ (match Stratify_transform c2sp none w24store 1 with
      | .ok r => r.out ≠ 1 ∧ alookup 1 r.st = alookup 1 w24store
      | .error _ => True)
    ∧ (match TreeLinks_transform [] tlStore 1 50 with
      | .ok r => r.out ≠ 1 ∧ alookup 1 r.st = alookup 1 tlStore
      | .error _ => True) :=
  ⟨claim_C2_pulse_isolation.1 c4np none w24store 1 0 (by decide),
   claim_C2_pulse_isolation.2.1 c2sp none w24store 1 (by decide),
   claim_C2_pulse_isolation.2.2 [] tlStore 1 50 (by decide)⟩

/-! ## Claim C4 -/

/-- Claim C4: on a no-op pulse (empty add/rem/mod, empty touched fields)
with unmodified parameters and an existing stored value, the Nest and
Stratify recomputes keep their stored tree value and push no additions or
removals into the pulse they return (Nest also leaves the id counter alone —
nothing is ingested). -/
theorem claim_C4_noop_pulse :
    (∀ (p : NestParams) (tree : NTree) (st : PStore) (pRef idc : Nat),
      (getP st pRef).add = [] → (getP st pRef).rem = [] →
      (getP st pRef).mod = [] → (getP st pRef).fields = [] →
      (getP st pRef).source.isSome → p.modified = false →
      match Nest_transform p (some tree) st pRef idc with
      | .ok r => r.value = some tree ∧ r.idc = idc
          ∧ (getP r.st r.out).add = [] ∧ (getP r.st r.out).rem = []
      | .error _ => False)
    ∧ (∀ (p : StratifyParams) (tree : NTree) (st : PStore) (pRef : Nat),
      (getP st pRef).add = [] → (getP st pRef).rem = [] →
      (getP st pRef).mod = [] → (getP st pRef).fields = [] →
      (getP st pRef).source.isSome → p.modified = false →
      match Stratify_transform p (some tree) st pRef with
      | .ok r => r.value = some tree
          ∧ (getP r.st r.out).add = [] ∧ (getP r.st r.out).rem = []
      | .error _ => False) := by
  constructor
  · intro p tree st pRef idc ha hb hc hd hs hm
    obtain ⟨src, hsome⟩ := Option.isSome_iff_exists.mp hs
    have hch : pchangedDefault (getP st pRef) = false := by
      simp [pchangedDefault, pchanged, ha, hb, hc]
    simp [Nest_transform, hsome, hm, hch, clonePulse, getP_updP_self,
      getP_cons_self, ha, hb]
  · intro p tree st pRef ha hb hc hd hs hm
    obtain ⟨src, hsome⟩ := Option.isSome_iff_exists.mp hs
    have hch : pchanged (getP st pRef) ADD_REM = false := by
      simp [pchanged, ha, hb, hc]
    have hmf : ∀ fs, pmodified (getP st pRef) fs = false := by
      intro fs
      simp [pmodified, hd]
    simp [Stratify_transform, hsome, hm, hch, hmf, forkPulse, materializeP,
      getP_updP_self, getP_cons_self, ha, hb, ADD, REM, MOD, ALL, SOURCE,
      NO_SOURCE]

/-- Witness for claim C4 at a concrete no-op pulse: both transforms keep the
stored one-node tree and return a pulse with empty add/rem. -/
theorem claim_C4_noop_pulse_witness :
    (match Nest_transform c4np (some w24tree) w24store 1 7 with
      | .ok r => r.value = some w24tree ∧ r.idc = 7
          ∧ (getP r.st r.out).add = [] ∧ (getP r.st r.out).rem = []
      | .error _ => False)
    ∧ (match Stratify_transform c2sp (some w24tree) w24store 1 with
      | .ok r => r.value = some w24tree
          ∧ (getP r.st r.out).add = [] ∧ (getP r.st r.out).rem = []
      | .error _ => False) :=
  ⟨claim_C4_noop_pulse.1 c4np w24tree w24store 1 7 (by decide) (by decide)
      (by decide) (by decide) (by decide) rfl,
   claim_C4_noop_pulse.2 c2sp w24tree w24store 1 (by decide) (by decide)
      (by decide) (by decide) (by decide) rfl⟩

/-! ## Claim C1 -/

/-- `OLe` is reflexive. -/
theorem ole_refl (x : Option Nat) : OLe x x := fun k h => ⟨k, h, Nat.le_refl k⟩

/-- `OLe` is transitive. -/
theorem ole_trans {x y z : Option Nat} (h1 : OLe x y) (h2 : OLe y z) : OLe x z :=
  fun k hk =>
    let ⟨m, hm, hkm⟩ := h1 k hk
    let ⟨n, hn, hmn⟩ := h2 m hm
    ⟨n, hn, Nat.le_trans hkm hmn⟩

/-- A relaxation pass can only grow the accumulator. -/
theorem relax_ge_acc (d : Nat → Option Nat) (v : Nat) :
    ∀ (l : List (Nat × Nat)) (acc : Option Nat), OLe acc (relaxEdges d v l acc)
  | [], acc => ole_refl acc
  | e :: rest, acc => by
    have hstep : OLe acc
        (if e.2 = v then
          (match d e.1 with
           | some k => some (max (acc.getD 0) (k + 1))
           | none => acc)
        else acc) := by
      split
      · split
        · intro k0 hk0
          refine ⟨_, rfl, ?_⟩
          have hgd : acc.getD 0 = k0 := by rw [hk0]; rfl
          rw [hgd]
          exact Nat.le_max_left _ _
        · exact ole_refl acc
      · exact ole_refl acc
    exact ole_trans hstep (relax_ge_acc d v rest _)

/-- A relaxation pass over a list containing an edge into `v` whose source
has distance `k` leaves `v` with a distance of at least `k + 1`. -/
theorem relax_mem (d : Nat → Option Nat) (v a k : Nat) (hd : d a = some k) :
    ∀ (l : List (Nat × Nat)) (acc : Option Nat), (a, v) ∈ l →
      ∃ m, relaxEdges d v l acc = some m ∧ k + 1 ≤ m
  | e :: rest, acc, hmem => by
    rcases List.mem_cons.mp hmem with he | hmem'
    · cases he
      have hstep : relaxEdges d v ((a, v) :: rest) acc
          = relaxEdges d v rest (some (max (acc.getD 0) (k + 1))) := by
        simp [relaxEdges, hd]
      obtain ⟨m, hm, hle⟩ := relax_ge_acc d v rest (some (max (acc.getD 0) (k + 1)))
          (max (acc.getD 0) (k + 1)) rfl
      rw [hstep]
      exact ⟨m, hm, Nat.le_trans (Nat.le_max_right _ _) hle⟩
    · simpa only [relaxEdges] using relax_mem d v a k hd rest _ hmem'

/-- Iterating the distance step preserves and grows defined distances. -/
theorem iter_ole (edges : List (Nat × Nat)) :
    ∀ (n : Nat) (d : Nat → Option Nat) (v : Nat), OLe (d v) (iterD edges n d v)
  | 0, _, _ => ole_refl _
  | n + 1, d, v =>
    ole_trans (relax_ge_acc d v edges (d v)) (iter_ole edges n (stepD edges d) v)

/-- At a distance fixpoint, an edge forces the target's distance at least
one above the source's. -/
theorem stepD_some_of_edge {edges : List (Nat × Nat)} {d : Nat → Option Nat}
    {a b k : Nat} (hmem : (a, b) ∈ edges) (hd : d a = some k) :
    ∃ m, stepD edges d b = some m ∧ k + 1 ≤ m :=
  relax_mem d b a k hd edges (d b) hmem

/-- If the re-ranking succeeds (the distance iteration reached a fixpoint),
the renumbered graph satisfies the rank invariant, provided edges whose two
endpoints are both unreachable already satisfied it. -/
theorem rerank_rankInv (gs : GraphState) (s : Nat) (gs' : GraphState)
    (hWF : EdgesWF gs)
    (hBase : ∀ e ∈ gs.edges, rerankDist gs s e.1 = none →
      rerankDist gs s e.2 = none → gs.rnk e.1 < gs.rnk e.2)
    (h : rerank gs s = Except.ok gs') : RankInv gs' := by
  simp only [rerank] at h
  split at h
  case isTrue hall =>
    cases h
    intro e he
    have hstable : ∀ v ∈ gs.ops,
        stepD gs.edges (rerankDist gs s) v = rerankDist gs s v := by
      intro v hv
      exact beq_iff_eq.mp (List.all_eq_true.mp hall v hv)
    obtain ⟨ha, hb⟩ := hWF e he
    dsimp only
    cases hda : rerankDist gs s e.1 with
    | some k =>
      have hme : (e.1, e.2) ∈ gs.edges := by simpa using he
      obtain ⟨m, hm, hle⟩ := stepD_some_of_edge hme hda
      rw [hstable e.2 hb] at hm
      simp only [hda, hm]
      omega
    | none =>
      cases hdb : rerankDist gs s e.2 with
      | some m =>
        simp only [hda, hdb]
        have hle : gs.rnk e.1 ≤ maxRank gs :=
          le_foldr_max _ _ (List.mem_map_of_mem gs.rnk ha)
        omega
      | none =>
        simp only [hda, hdb]
        exact hBase e he hda hdb
  case isFalse =>
    simp at h

/-- `connect` preserves the rank invariant: without a rank violation the new
edge already respects ranks; with one, the re-ranking restores them. -/
theorem connect_rankInv {gs : GraphState} {s t : Nat} {gs' : GraphState}
    (hWF : EdgesWF gs) (hInv : RankInv gs) (hs : s ∈ gs.ops) (ht : t ∈ gs.ops)
    (h : connect gs s t = Except.ok gs') : RankInv gs' := by
  unfold connect at h
  split at h
  case isTrue hle =>
    refine rerank_rankInv _ s gs' ?_ ?_ h
    · intro e he
      rcases List.mem_append.mp he with h' | h'
      · exact hWF e h'
      · have := List.mem_singleton.mp h'
        subst this
        exact ⟨hs, ht⟩
    · intro e he hd1 hd2
      rcases List.mem_append.mp he with h' | h'
      · exact hInv e h'
      · have := List.mem_singleton.mp h'
        subst this
        obtain ⟨m, hm, _⟩ :=
          iter_ole (gs.edges ++ [(s, t)]) (gs.ops.length + 1)
            (fun v => if v = s then some 0 else none) s 0 (by simp)
        unfold rerankDist at hd1
        dsimp only at hd1
        rw [hm] at hd1
        cases hd1
  case isFalse hgt =>
    cases h
    intro e he
    rcases List.mem_append.mp he with h' | h'
    · exact hInv e h'
    · have := List.mem_singleton.mp h'
      subst this
      dsimp only
      omega

/-- `addOperator` preserves the rank invariant: the fresh node sits one
above the maximum of its parameters' ranks, and no old edge touches it. -/
theorem addOperator_rankInv {gs : GraphState} {id : Nat} {params : List Nat}
    (hWF : EdgesWF gs) (hInv : RankInv gs) (hid : id ∉ gs.ops)
    (hps : ∀ q ∈ params, q ∈ gs.ops) : RankInv (addOperator gs id params) := by
  intro e he
  simp only [addOperator] at he ⊢
  rcases List.mem_append.mp he with h' | h'
  · obtain ⟨h1, h2⟩ := hWF e h'
    have hne1 : e.1 ≠ id := fun hh => hid (hh ▸ h1)
    have hne2 : e.2 ≠ id := fun hh => hid (hh ▸ h2)
    rw [if_neg hne1, if_neg hne2]
    exact hInv e h'
  · obtain ⟨q, hq, rfl⟩ := List.mem_map.mp h'
    have hqo : q ∈ gs.ops := hps q hq
    have hne : q ≠ id := fun hh => hid (hh ▸ hqo)
    dsimp only
    rw [if_neg hne, if_pos rfl]
    have hle : gs.rnk q ≤ (params.map gs.rnk).foldr (fun a b => max a b) 0 :=
      le_foldr_max _ _ (List.mem_map_of_mem gs.rnk hq)
    omega

/-- `removeOperator` preserves the rank invariant: surviving edges are a
subset of the old ones and keep their ranks. -/
theorem removeOperator_rankInv {gs : GraphState} {id : Nat} (hInv : RankInv gs) :
    RankInv (removeOperator gs id) := by
  intro e he
  exact hInv e (List.mem_of_mem_filter he)

/-- Claim C1: after any graph mutation settles — an operator added, an edge
connected (with re-ranking when needed), or an operator removed — every edge
`(A → B)` of the operator graph satisfies `rank(A) < rank(B)`; a mutation
that would break this (a cycle) is rejected with an error instead. -/
theorem claim_C1_rank_invariant (gs : GraphState) (m : GraphMutation)
    (hWF : EdgesWF gs) (hInv : RankInv gs) (hOK : MutOK gs m) :
    match applyMutation gs m with
    | .ok gs' => RankInv gs'
    | .error _ => True := by
  cases m with
  | addOp id ps =>
    exact addOperator_rankInv hWF hInv hOK.1 hOK.2
  | connectEdge s t =>
    cases hres : connect gs s t with
    | ok gs' =>
      simp only [applyMutation, hres]
      exact connect_rankInv hWF hInv hOK.1 hOK.2 hres
    | error e =>
      simp only [applyMutation, hres]
  | removeOp id =>
    exact removeOperator_rankInv hInv

/-- Witness for claim C1: connecting two equal-rank operators triggers the
re-ranking, which restores the invariant. -/
theorem claim_C1_rank_invariant_witness :
    (match applyMutation w1graph (GraphMutation.connectEdge 5 9) with
      | .ok gs' => RankInv gs'
      | .error _ => True) :=
  claim_C1_rank_invariant w1graph (GraphMutation.connectEdge 5 9)
    (by intro e he; simp [w1graph] at he)
    (by intro e he; simp [w1graph] at he)
    ⟨by decide, by decide⟩

/-! ## Claim C9 -/

/-- Lookup after one grouping step: the key hit by the step gains `x` at the
end of its group, everything else is untouched. -/
theorem alookup_insertGroup {α : Type} (k : String) (x : α) :
    ∀ (acc : List (String × List α)) (q : String),
      alookup q (insertGroup k x acc)
        = if q = k then some ((alookup k acc).getD [] ++ [x]) else alookup q acc
  | [], q => by
    by_cases h : q = k
    · subst h
      simp [insertGroup, alookup]
    · have h' : ¬k = q := fun hh => h hh.symm
      simp [insertGroup, alookup, h, h']
  | g :: rest, q => by
    by_cases hg : g.1 = k
    · subst hg
      by_cases hq : q = g.1
      · subst hq
        simp [insertGroup, alookup]
      · have hq' : ¬g.1 = q := fun hh => hq hh.symm
        simp [insertGroup, alookup, hq, hq']
    · by_cases hq : q = k
      · subst hq
        have hg' : ¬g.1 = q := hg
        simp [insertGroup, alookup, hg, hg', alookup_insertGroup q x rest q]
      · by_cases hgq : g.1 = q
        · simp [insertGroup, alookup, hg, hgq, hq]
        · simp [insertGroup, alookup, hg, hgq, hq, alookup_insertGroup k x rest q]

/-- Lookup after the whole grouping loop: each key's group is its
accumulator prefix followed by the matching elements in input order. -/
theorem alookup_groupLoop {α : Type} (key : α → String) :
    ∀ (xs : List α) (acc : List (String × List α)) (q : String),
      alookup q (groupLoop key xs acc)
        = match alookup q acc with
          | some g => some (g ++ xs.filter (fun y => key y == q))
          | none =>
            if (xs.filter (fun y => key y == q)).isEmpty then none
            else some (xs.filter (fun y => key y == q))
  | [], acc, q => by
    cases h : alookup q acc <;> simp [groupLoop, h]
  | x :: xs, acc, q => by
    simp only [groupLoop]
    rw [alookup_groupLoop key xs (insertGroup (key x) x acc) q,
      alookup_insertGroup (key x) x acc q]
    by_cases hqx : q = key x
    · rw [if_pos hqx]
      subst hqx
      cases h : alookup (key x) acc with
      | some g => simp [h, List.filter_cons]
      | none => simp [h, List.filter_cons]
    · rw [if_neg hqx]
      have hbeq : (key x == q) = false := by
        simp
        exact fun hh => hqx hh.symm
      cases h : alookup q acc with
      | some g => simp [h, List.filter_cons, hbeq]
      | none => simp [h, List.filter_cons, hbeq]

/-- One grouping step appends at most one new key, at the end. -/
theorem insertGroup_keys {α : Type} (k : String) (x : α) :
    ∀ acc : List (String × List α),
      (insertGroup k x acc).map Prod.fst
        = if k ∈ acc.map Prod.fst then acc.map Prod.fst
          else acc.map Prod.fst ++ [k]
  | [] => by simp [insertGroup]
  | g :: rest => by
    by_cases hg : g.1 = k
    · subst hg
      simp [insertGroup]
    · have hne : ¬k = g.1 := fun h => hg h.symm
      by_cases hk : k ∈ rest.map Prod.fst <;>
        simp [insertGroup, hg, insertGroup_keys k x rest, hk, hne]

/-- One grouping step keeps the key list duplicate-free. -/
theorem insertGroup_keys_nodup {α : Type} (k : String) (x : α)
    (acc : List (String × List α)) (h : (acc.map Prod.fst).Nodup) :
    ((insertGroup k x acc).map Prod.fst).Nodup := by
  rw [insertGroup_keys]
  split
  · exact h
  · next hk =>
    simp [List.nodup_append, h, hk]

/-- The grouping loop keeps the key list duplicate-free. -/
theorem groupLoop_keys_nodup {α : Type} (key : α → String) :
    ∀ (xs : List α) (acc : List (String × List α)),
      (acc.map Prod.fst).Nodup → ((groupLoop key xs acc).map Prod.fst).Nodup
  | [], _, h => h
  | x :: xs, acc, h =>
    groupLoop_keys_nodup key xs _ (insertGroup_keys_nodup (key x) x acc h)

/-- With duplicate-free keys, membership determines the lookup. -/
theorem alookup_of_mem_nodup {κ β : Type} [DecidableEq κ] :
    ∀ l : List (κ × β), (l.map Prod.fst).Nodup → ∀ p ∈ l, alookup p.1 l = some p.2
  | [], _, p, hp => absurd hp (List.not_mem_nil p)
  | g :: rest, hnd, p, hp => by
    rw [List.map_cons, List.nodup_cons] at hnd
    rcases List.mem_cons.mp hp with rfl | hp'
    · simp [alookup]
    · have hg : g.1 ≠ p.1 := by
        intro hh
        exact hnd.1 (hh ▸ List.mem_map_of_mem Prod.fst hp')
      simp only [alookup, if_neg hg]
      exact alookup_of_mem_nodup rest hnd.2 p hp'

/-- A successful lookup comes from a member. -/
theorem mem_of_alookup {κ β : Type} [DecidableEq κ] :
    ∀ (l : List (κ × β)) (k : κ) (v : β), alookup k l = some v → (k, v) ∈ l
  | g :: rest, k, v, h => by
    by_cases hg : g.1 = k
    · subst hg
      simp only [alookup, if_pos rfl] at h
      have hv : g.2 = v := Option.some.inj h
      subst hv
      exact List.mem_cons_self _ _
    · simp only [alookup, if_neg hg] at h
      exact List.mem_cons_of_mem g (mem_of_alookup rest k v h)

/-- Every group produced by the grouping loop is a non-empty filter of the
input by its own key. -/
theorem groupLoop_group_eq {α : Type} (key : α → String) (xs : List α)
    (g : String × List α) (hg : g ∈ groupLoop key xs []) :
    g.2 = xs.filter (fun y => key y == g.1) ∧ g.2 ≠ [] := by
  have hnd := groupLoop_keys_nodup key xs [] (by simp)
  have hl := alookup_of_mem_nodup _ hnd g hg
  have h2 := alookup_groupLoop key xs [] g.1
  rw [hl] at h2
  simp only [alookup] at h2
  split at h2
  · exact absurd h2 (by simp)
  · next hne =>
    have hge := Option.some.inj h2
    refine ⟨hge, ?_⟩
    intro hnil
    rw [hnil] at hge
    rw [← hge] at hne
    exact hne rfl

/-- Every input element's group is present in the grouping loop's output. -/
theorem groupLoop_mem_of_elem {α : Type} (key : α → String) (xs : List α)
    (x : α) (hx : x ∈ xs) :
    (key x, xs.filter (fun y => key y == key x)) ∈ groupLoop key xs [] := by
  have hxf : x ∈ xs.filter (fun y => key y == key x) :=
    List.mem_filter.mpr ⟨hx, by simp⟩
  have hne : (xs.filter (fun y => key y == key x)).isEmpty = false := by
    cases hfl : xs.filter (fun y => key y == key x) with
    | nil =>
      rw [hfl] at hxf
      exact absurd hxf (List.not_mem_nil x)
    | cons a l => rfl
  have h2 := alookup_groupLoop key xs [] (key x)
  simp only [alookup, hne, Bool.false_eq_true, if_false] at h2
  exact mem_of_alookup _ _ _ h2

/-- One grouping step grows the grouped contents by exactly `x`, up to
permutation. -/
theorem insertGroup_join {α : Type} (k : String) (x : α) :
    ∀ acc : List (String × List α),
      List.Perm ((insertGroup k x acc).map Prod.snd).flatten
        ((acc.map Prod.snd).flatten ++ [x])
  | [] => by simp [insertGroup]
  | g :: rest => by
    by_cases hg : g.1 = k
    · subst hg
      simp only [insertGroup]
      rw [if_pos trivial]
      simp only [List.map_cons, List.flatten_cons]
      rw [List.append_assoc, List.append_assoc]
      exact List.Perm.append_left g.2 List.perm_append_comm
    · simp only [insertGroup]
      rw [if_neg hg]
      simp only [List.map_cons, List.flatten_cons]
      rw [List.append_assoc]
      exact List.Perm.append_left g.2 (insertGroup_join k x rest)

/-- The grouping loop redistributes exactly the input elements over the
groups. -/
theorem groupLoop_join {α : Type} (key : α → String) :
    ∀ (xs : List α) (acc : List (String × List α)),
      List.Perm ((groupLoop key xs acc).map Prod.snd).flatten
        ((acc.map Prod.snd).flatten ++ xs)
  | [], acc => by simp [groupLoop]
  | x :: xs, acc => by
    simp only [groupLoop]
    have h1 := groupLoop_join key xs (insertGroup (key x) x acc)
    have h2 : List.Perm (((insertGroup (key x) x acc).map Prod.snd).flatten ++ xs)
        (((acc.map Prod.snd).flatten ++ [x]) ++ xs) :=
      List.Perm.append_right xs (insertGroup_join (key x) x acc)
    have h3 : ((acc.map Prod.snd).flatten ++ [x]) ++ xs
        = (acc.map Prod.snd).flatten ++ (x :: xs) := by
      rw [List.append_assoc]
      rfl
    rw [← h3]
    exact h1.trans h2

/-- The leaf groups redistribute exactly the input elements. -/
theorem leafGroups_join_perm {α : Type} :
    ∀ (ks : List (α → String)) (arr : List α),
      List.Perm (leafGroups ks arr).flatten arr
  | [], arr => by simp [leafGroups]
  | k :: rest, arr => by
    simp only [leafGroups]
    have haux : ∀ l : List (String × List α),
        List.Perm ((l.flatMap (fun g => leafGroups rest g.2)).flatten)
          ((l.map Prod.snd).flatten) := by
      intro l
      induction l with
      | nil => simp
      | cons g t ih =>
        simp only [List.flatMap_cons, List.flatten_append, List.map_cons,
          List.flatten_cons]
        exact List.Perm.append (leafGroups_join_perm rest g.2) ih
    have h1 := haux (groupLoop k arr [])
    have h2 := groupLoop_join k arr []
    simpa using h1.trans h2

/-- Merging the two filter levels into agreement on one more key. -/
theorem filter_filter_keysAgree {α : Type} (k : α → String)
    (rest : List (α → String)) (x : α) (arr : List α) :
    (arr.filter (fun y => k y == k x)).filter (keysAgree rest x)
      = arr.filter (keysAgree (k :: rest) x) := by
  rw [List.filter_filter]
  apply List.filter_congr
  intro a _
  simp [keysAgree, List.all_cons, Bool.and_comm]

/-- Every input element's full-key filter appears among the leaf groups and
contains the element. -/
theorem leafGroups_mem_filter {α : Type} :
    ∀ (ks : List (α → String)) (arr : List α) (x : α), x ∈ arr →
      arr.filter (keysAgree ks x) ∈ leafGroups ks arr
        ∧ x ∈ arr.filter (keysAgree ks x)
  | [], arr, x, hx => by
    constructor
    · rw [show keysAgree ([] : List (α → String)) x = fun _ => true from rfl]
      simp [leafGroups]
    · rw [show keysAgree ([] : List (α → String)) x = fun _ => true from rfl]
      simpa using hx
  | k :: rest, arr, x, hx => by
    have hGmem := groupLoop_mem_of_elem k arr x hx
    have hxG : x ∈ arr.filter (fun y => k y == k x) :=
      List.mem_filter.mpr ⟨hx, by simp⟩
    obtain ⟨hin, hxin⟩ :=
      leafGroups_mem_filter rest (arr.filter (fun y => k y == k x)) x hxG
    have hff := filter_filter_keysAgree k rest x arr
    refine ⟨?_, ?_⟩
    · simp only [leafGroups]
      refine List.mem_flatMap.mpr
        ⟨(k x, arr.filter (fun y => k y == k x)), hGmem, ?_⟩
      rw [← hff]
      exact hin
    · rw [← hff]
      exact hxin

/-- Every leaf group containing an element is that element's full-key
filter of the input. -/
theorem leafGroups_eq_filter {α : Type} :
    ∀ (ks : List (α → String)) (arr L : List α) (x : α),
      L ∈ leafGroups ks arr → x ∈ L → L = arr.filter (keysAgree ks x)
  | [], arr, L, x, hL, _ => by
    simp only [leafGroups, List.mem_singleton] at hL
    subst hL
    rw [show keysAgree ([] : List (α → String)) x = fun _ => true from rfl]
    simp
  | k :: rest, arr, L, x, hL, hx => by
    simp only [leafGroups] at hL
    obtain ⟨g, hgmem, hLsub⟩ := List.mem_flatMap.mp hL
    obtain ⟨hg2, _⟩ := groupLoop_group_eq k arr g hgmem
    have hLeq := leafGroups_eq_filter rest g.2 L x hLsub hx
    have hxg : x ∈ g.2 := by
      rw [hLeq] at hx
      exact List.mem_of_mem_filter hx
    have hkx : k x = g.1 := by
      rw [hg2] at hxg
      exact beq_iff_eq.mp (List.mem_filter.mp hxg).2
    rw [hLeq, hg2, ← hkx, filter_filter_keysAgree]

/-- The leaves of the `nest()` entries structure are the direct leaf
groups. -/
theorem nestLeaves_eq_leafGroups {α : Type} :
    ∀ (ks : List (α → String)) (arr : List α),
      nestLeaves ks arr = leafGroups ks arr
  | [], _ => rfl
  | k :: rest, arr => by
    simp only [nestLeaves, nestEntries, applyFn, entriesFn, entryLeaves,
      leafGroups, List.map_map]
    have haux : ∀ l : List (String × List α),
        ((l.map (fun g =>
            ((g.1, applyFn rest g.2).1,
              entriesFn rest (g.1, applyFn rest g.2).2))).flatMap
          (fun g => entryLeaves rest g.2))
          = l.flatMap (fun g => leafGroups rest g.2) := by
      intro l
      induction l with
      | nil => rfl
      | cons g t ih =>
        simp only [List.map_cons, List.flatMap_cons, ih]
        have hg := nestLeaves_eq_leafGroups rest g.2
        simp only [nestLeaves, nestEntries] at hg
        rw [hg]
    exact haux _

/-- Claim C9: the grouping built by `nest()` with any key list partitions
the input array — the leaf groups' contents are a permutation of the input,
each input element lies in its full-key filter which is one of the leaf
groups, any leaf group containing an element equals that filter (so the leaf
containing an element is unique as a list value, and two elements share a
leaf exactly when every key agrees on them), and every leaf group is a
sublist of the input, preserving relative order. -/
theorem claim_C9_nest_partition {α : Type} (ks : List (α → String))
    (arr : List α) :
    List.Perm (nestLeaves ks arr).flatten arr
    ∧ (∀ x ∈ arr, arr.filter (keysAgree ks x) ∈ nestLeaves ks arr
        ∧ x ∈ arr.filter (keysAgree ks x))
    ∧ (∀ L ∈ nestLeaves ks arr, ∀ x ∈ L, L = arr.filter (keysAgree ks x))
    ∧ (∀ L ∈ nestLeaves ks arr, L.Sublist arr)
    ∧ (∀ x ∈ arr, ∀ y,
        y ∈ arr.filter (keysAgree ks x) ↔ y ∈ arr ∧ ∀ k ∈ ks, k y = k x) := by
  rw [nestLeaves_eq_leafGroups]
  refine ⟨leafGroups_join_perm ks arr,
    fun x hx => leafGroups_mem_filter ks arr x hx,
    fun L hL x hx => leafGroups_eq_filter ks arr L x hL hx, ?_, ?_⟩
  · intro L hL
    rcases L with _ | ⟨a, t⟩
    · exact List.nil_sublist arr
    · rw [leafGroups_eq_filter ks arr (a :: t) a hL (List.mem_cons_self a t)]
      exact List.filter_sublist arr
  · intro x _ y
    rw [List.mem_filter]
    simp [keysAgree, List.all_eq_true]

/-- Witness for claim C9 on the parity grouping of `[1, 2, 3, 4]`: the
leaves repartition the input and the element 2 lies in its own parity
class, which is a leaf. -/
theorem claim_C9_nest_partition_witness :
    List.Perm (nestLeaves w9keys w9arr).flatten w9arr
    ∧ w9arr.filter (keysAgree w9keys 2) ∈ nestLeaves w9keys w9arr
    ∧ 2 ∈ w9arr.filter (keysAgree w9keys 2) :=
  ⟨(claim_C9_nest_partition w9keys w9arr).1,
   ((claim_C9_nest_partition w9keys w9arr).2.1 2 (by decide)).1,
   ((claim_C9_nest_partition w9keys w9arr).2.1 2 (by decide)).2⟩

end Vega
